import Mathlib

/-!
Verification of `sslyze/plugins/certificate_info/json_output.py`.

The module under verification converts parsed X.509 certificate objects and
object identifiers into JSON-compatible mappings, and registers those
conversion functions (plus a deep-copy strategy for the certificate type)
into a generic type-directed serialization facility.

Shallow embedding conventions:
  * Python arbitrary-precision non-negative integers are `Nat`.
  * Python `str(n)` on a non-negative integer is `pythonStr` below, built
    from an executable base-10 digit expansion.
  * A Python `dict` (insertion-ordered, unique keys) is an association list
    `List (String × JsonValue)`.
  * An operation that can raise an uncaught exception (here: an
    `AttributeError` on a public-key object lacking `key_size` or
    `public_numbers().e`) is `Option`-valued, `none` being the raise.
  * External collaborators that live outside the verified file
    (the `cryptography` library accessors, `certificate_utils` helpers and
    the generic serializer's dispatch table) are modelled from their
    documented interface contracts; each such definition carries a doc
    comment saying what it models.
-/

/-! ## Decimal rendering: the model of Python `str` on a non-negative int -/

/-- Big-endian base-10 digit list of `n`, with explicit fuel so that the
definition is structurally recursive and kernel-evaluable. Returns `[]` for
`n = 0`. -/
def natToDigitsAux : Nat → Nat → List Nat
  | 0, _ => []
  | fuel + 1, n => if n = 0 then [] else natToDigitsAux fuel (n / 10) ++ [n % 10]

/-- Big-endian base-10 digits of `n`; `0` renders as `[0]`. -/
def natDecimalDigits (n : Nat) : List Nat :=
  if n = 0 then [0] else natToDigitsAux n n

/-- The characters of Python's `str(n)` for a non-negative integer. -/
def natDecimalChars (n : Nat) : List Char :=
  (natDecimalDigits n).map Nat.digitChar

/-- Model of Python `str(n)` for `n : Nat`: exact base-10 rendering with no
width limit. -/
def pythonStr (n : Nat) : String :=
  String.mk (natDecimalChars n)

/-- Value of a big-endian digit list. -/
def decimalValue (l : List Nat) : Nat :=
  l.foldl (fun a d => a * 10 + d) 0

/-- Numeric value of a decimal-digit character. -/
def charVal (c : Char) : Nat :=
  c.toNat - 48

/-- Reads a decimal-digit string back into the number it denotes. -/
def decodeDecimalString (s : String) : Nat :=
  decimalValue (s.data.map charVal)

/-! ## Base64 (model of Python `base64.b64encode` on bytes) -/

def base64Alphabet : List Char :=
  "ABCDEFGHIJKLMNOPQRSTUVWXYZabcdefghijklmnopqrstuvwxyz0123456789+/".data

def base64Digit (n : Nat) : Char :=
  base64Alphabet.getD n '?'

/-- Standard base64 encoding of a byte list (each `Nat` is a byte value). -/
def b64encodeBytes : List Nat → List Char
  | [] => []
  | [a] => [base64Digit (a / 4), base64Digit (a % 4 * 16), '=', '=']
  | [a, b] =>
      [base64Digit (a / 4), base64Digit (a % 4 * 16 + b / 16),
       base64Digit (b % 16 * 4), '=']
  | a :: b :: c :: rest =>
      base64Digit (a / 4) :: base64Digit (a % 4 * 16 + b / 16) ::
      base64Digit (b % 16 * 4 + c / 64) :: base64Digit (c % 64) ::
      b64encodeBytes rest

/-- Model of `b64encode(bytes).decode("utf-8")`. -/
def b64encodeStr (bytes : List Nat) : String :=
  String.mk (b64encodeBytes bytes)

/-! ## Data model: the `cryptography` library values this module reads -/

/-- A naive datetime as returned by `certificate.not_valid_before/after`. -/
structure PyDateTime where
  year : Nat
  month : Nat
  day : Nat
  hour : Nat
  minute : Nat
  second : Nat
deriving DecidableEq

/-- The invariant Python's `datetime` constructor enforces on its fields. -/
def PyDateTime.Valid (d : PyDateTime) : Prop :=
  1 ≤ d.year ∧ d.year ≤ 9999 ∧ 1 ≤ d.month ∧ d.month ≤ 12 ∧
  1 ≤ d.day ∧ d.day ≤ 31 ∧ d.hour ≤ 23 ∧ d.minute ≤ 59 ∧ d.second ≤ 59

/-- An elliptic-curve public key object: `isinstance(k, EllipticCurvePublicKey)`
holds. It exposes `curve.name`, `curve.key_size`, and its runtime class name. -/
structure ECKeyData where
  className : String
  curveName : String
  curveKeySize : Nat
deriving DecidableEq

/-- Any other public key object. `keySize` models the `key_size` attribute and
`publicNumbersE` models `public_numbers().e`; either is `none` when the
concrete key class does not define it (e.g. `public_numbers()` of a DSA key
has no `e`, and an Ed25519 key has neither attribute), in which case the
attribute access raises `AttributeError`. -/
structure OtherKeyData where
  className : String
  keySize : Option Nat
  publicNumbersE : Option Nat
deriving DecidableEq

/-- The public key of a certificate, split exactly along the `isinstance`
test the source performs. -/
inductive PublicKeyData where
  | ec : ECKeyData → PublicKeyData
  | other : OtherKeyData → PublicKeyData
deriving DecidableEq

/-- Model of `public_key().__class__.__name__`: the runtime class name of the
key object, an arbitrary string carried by the object itself. -/
def PublicKeyData.className : PublicKeyData → String
  | .ec d => d.className
  | .other d => d.className

/-- A parsed X.509 certificate, holding exactly the data the accessors used by
`json_output.py` expose. -/
structure Certificate where
  subjectRfc4514 : String
  issuerRfc4514 : String
  serialNumber : Nat
  notValidBefore : PyDateTime
  notValidAfter : PyDateTime
  signatureHashAlgorithmName : String
  publicKey : PublicKeyData
  dnsSubjectAlternativeNames : List String
deriving DecidableEq

/-! ## PEM encoding and parsing (model of the external library's
`public_bytes(Encoding.PEM)` / `load_pem_x509_certificate` pair) -/

/-- Length-delimited encoding of a natural number: its decimal digits followed
by a `;` terminator. -/
def encNatChars (n : Nat) : List Char :=
  natDecimalChars n ++ [';']

/-- Length-prefixed encoding of a string. -/
def encStrChars (s : String) : List Char :=
  encNatChars s.data.length ++ s.data

def encOptNatChars : Option Nat → List Char
  | none => ['N']
  | some n => 'S' :: encNatChars n

def encDateTimeChars (d : PyDateTime) : List Char :=
  encNatChars d.year ++ encNatChars d.month ++ encNatChars d.day ++
  encNatChars d.hour ++ encNatChars d.minute ++ encNatChars d.second

def encPublicKeyChars : PublicKeyData → List Char
  | .ec d => 'E' :: (encStrChars d.className ++ encStrChars d.curveName ++
      encNatChars d.curveKeySize)
  | .other d => 'O' :: (encStrChars d.className ++ encOptNatChars d.keySize ++
      encOptNatChars d.publicNumbersE)

def encStrListChars (l : List String) : List Char :=
  encNatChars l.length ++ (l.map encStrChars).flatten

/-- The body of the PEM encoding of a certificate: a canonical, injective
serialization of every field the parsed certificate carries. -/
def encCertificateChars (c : Certificate) : List Char :=
  encStrChars c.subjectRfc4514 ++ encStrChars c.issuerRfc4514 ++
  encNatChars c.serialNumber ++ encDateTimeChars c.notValidBefore ++
  encDateTimeChars c.notValidAfter ++ encStrChars c.signatureHashAlgorithmName ++
  encPublicKeyChars c.publicKey ++ encStrListChars c.dnsSubjectAlternativeNames

def pemHeader : List Char := "-----BEGIN CERTIFICATE-----\n".data

def pemFooter : List Char := "\n-----END CERTIFICATE-----\n".data

/-- Modelled from the spec: `certificate.public_bytes(Encoding.PEM)` of the
external `cryptography` library ("Encode certificate to canonical PEM text"),
followed by `.decode("ascii")`. The canonical byte encoding is modelled as an
injective serialization of the parsed certificate value between the standard
PEM header and footer lines. -/
def Certificate.publicBytesPem (c : Certificate) : String :=
  String.mk (pemHeader ++ encCertificateChars c ++ pemFooter)

def parseNatChars (l : List Char) : Option (Nat × List Char) :=
  match l.dropWhile Char.isDigit with
  | ';' :: r => some (decimalValue ((l.takeWhile Char.isDigit).map charVal), r)
  | _ => none

def parseStrChars (l : List Char) : Option (String × List Char) :=
  match parseNatChars l with
  | some (k, r) =>
      if k ≤ r.length then some (String.mk (r.take k), r.drop k) else none
  | none => none

def parseOptNatChars : List Char → Option (Option Nat × List Char)
  | 'N' :: r => some (none, r)
  | 'S' :: r =>
      match parseNatChars r with
      | some (n, r') => some (some n, r')
      | none => none
  | _ => none

def parseDateTimeChars (l : List Char) : Option (PyDateTime × List Char) :=
  match parseNatChars l with
  | some (y, r1) =>
    match parseNatChars r1 with
    | some (mo, r2) =>
      match parseNatChars r2 with
      | some (da, r3) =>
        match parseNatChars r3 with
        | some (h, r4) =>
          match parseNatChars r4 with
          | some (mi, r5) =>
            match parseNatChars r5 with
            | some (s, r6) => some (⟨y, mo, da, h, mi, s⟩, r6)
            | none => none
          | none => none
        | none => none
      | none => none
    | none => none
  | none => none

def parsePublicKeyChars : List Char → Option (PublicKeyData × List Char)
  | 'E' :: l =>
    match parseStrChars l with
    | some (cn, r1) =>
      match parseStrChars r1 with
      | some (cv, r2) =>
        match parseNatChars r2 with
        | some (sz, r3) => some (.ec ⟨cn, cv, sz⟩, r3)
        | none => none
      | none => none
    | none => none
  | 'O' :: l =>
    match parseStrChars l with
    | some (cn, r1) =>
      match parseOptNatChars r1 with
      | some (ks, r2) =>
        match parseOptNatChars r2 with
        | some (e, r3) => some (.other ⟨cn, ks, e⟩, r3)
        | none => none
      | none => none
    | none => none
  | _ => none

def parseStrListAux : Nat → List Char → Option (List String × List Char)
  | 0, l => some ([], l)
  | k + 1, l =>
    match parseStrChars l with
    | some (s, r) =>
      match parseStrListAux k r with
      | some (ss, r') => some (s :: ss, r')
      | none => none
    | none => none

def parseStrListChars (l : List Char) : Option (List String × List Char) :=
  match parseNatChars l with
  | some (k, r) => parseStrListAux k r
  | none => none

def parseCertificateChars (l : List Char) : Option (Certificate × List Char) :=
  match parseStrChars l with
  | some (subj, r1) =>
    match parseStrChars r1 with
    | some (iss, r2) =>
      match parseNatChars r2 with
      | some (serial, r3) =>
        match parseDateTimeChars r3 with
        | some (nb, r4) =>
          match parseDateTimeChars r4 with
          | some (na, r5) =>
            match parseStrChars r5 with
            | some (sig, r6) =>
              match parsePublicKeyChars r6 with
              | some (pk, r7) =>
                match parseStrListChars r7 with
                | some (dns, r8) => some (⟨subj, iss, serial, nb, na, sig, pk, dns⟩, r8)
                | none => none
              | none => none
            | none => none
          | none => none
        | none => none
      | none => none
    | none => none
  | none => none

/-- Modelled from the spec: `x509.load_pem_x509_certificate` of the external
`cryptography` library — re-parses PEM text into a certificate value, failing
on malformed input ("then re-parse"). -/
def load_pem_x509_certificate (pem : String) : Option Certificate :=
  if pem.data.take pemHeader.length = pemHeader then
    match parseCertificateChars (pem.data.drop pemHeader.length) with
    | some (c, rest) => if rest = pemFooter then some c else none
    | none => none
  else none

/-! ## External utilities from `sslyze.plugins.certificate_info.certificate_utils` -/

/-- Modelled from the spec: `extract_dns_subject_alternative_names` from
`certificate_utils` (not under `src/`) — "Extract DNS subject-alternative
names (ordered sequence of strings) from the certificate via the external
extraction utility". The certificate value carries the parsed SAN DNS list. -/
def extract_dns_subject_alternative_names (certificate : Certificate) : List String :=
  certificate.dnsSubjectAlternativeNames

/-- Modelled from the spec: `get_public_key_sha256` from `certificate_utils`
(not under `src/`) — "Compute a fixed-length digest over the public key's
canonical encoding (defined externally; treat as opaque digest bytes)". The
digest is modelled as a deterministic 32-byte function of the public key's
canonical encoding; its exact values are opaque to the module under
verification, which only base64-encodes them. -/
def get_public_key_sha256 (certificate : Certificate) : List Nat :=
  (List.range 32).map fun i =>
    (encPublicKeyChars certificate.publicKey).foldl
      (fun a c => (a * 131 + c.toNat) % 256) i

/-! ## `strftime` (model of Python `datetime.strftime("%Y-%m-%d %H:%M:%S")`) -/

/-- Zero-pads the decimal rendering of `n` to at least `w` characters, exactly
as `strftime`'s zero-padded numeric directives do. -/
def padZeroTo (w n : Nat) : List Char :=
  List.replicate (w - (natDecimalChars n).length) '0' ++ natDecimalChars n

/-- Model of `d.strftime("%Y-%m-%d %H:%M:%S")`: year to four digits, every
other field to two, joined with literal `-`, space and `:` separators. -/
def strftimeYmdHms (d : PyDateTime) : String :=
  String.mk (padZeroTo 4 d.year ++ ['-'] ++ padZeroTo 2 d.month ++ ['-'] ++
    padZeroTo 2 d.day ++ [' '] ++ padZeroTo 2 d.hour ++ [':'] ++
    padZeroTo 2 d.minute ++ [':'] ++ padZeroTo 2 d.second)

/-! ## ObjectIdentifier -/

/-- A parsed OID: its arc sequence. `dotted_string` is the library's canonical
dotted rendering of the arcs. -/
structure ObjectIdentifier where
  arcs : List Nat
deriving DecidableEq

/-- Model of the `cryptography` library's `ObjectIdentifier.dotted_string`
accessor: the canonical dotted-decimal rendering of the arcs. -/
def ObjectIdentifier.dottedString (oid : ObjectIdentifier) : String :=
  String.intercalate "." (oid.arcs.map pythonStr)

/-! ## JSON values -/

/-- JSON-safe values as produced for the generic serializer. `num` exists in
the JSON data model but is never produced by this module (all numeric fields
are stringified). -/
inductive JsonValue where
  | str : String → JsonValue
  | num : Int → JsonValue
  | arr : List JsonValue → JsonValue
  | obj : List (String × JsonValue) → JsonValue

/-- Lookup in an insertion-ordered mapping (Python `dict` access). -/
def dictGet (m : List (String × JsonValue)) (k : String) : Option JsonValue :=
  match m with
  | [] => none
  | (k', v) :: rest => if k' = k then some v else dictGet rest k

/-- The key list of a mapping, in insertion order. -/
def dictKeys (m : List (String × JsonValue)) : List String :=
  m.map Prod.fst

/-- Holds (as `true`) when a JSON value contains no native JSON number anywhere. -/
def JsonValue.numFree : JsonValue → Bool
  | .str _ => true
  | .num _ => false
  | .arr [] => true
  | .arr (v :: l) => v.numFree && (JsonValue.arr l).numFree
  | .obj [] => true
  | .obj ((_, v) :: l) => v.numFree && (JsonValue.obj l).numFree

/-! ## The module under verification: `json_output.py` -/

/-- Source function `_oid_to_json` (json_output.py line 37): returns
`obj.dotted_string`. -/
def _oid_to_json (obj : ObjectIdentifier) : String :=
  obj.dottedString

/-- Source function `_certificate_to_json` (json_output.py lines 41-68).
Builds the dict of
nine literal entries, appends `subjectAlternativeName` when the extracted DNS
list is truthy (non-empty), then extends the nested `publicKey` dict along the
`isinstance(public_key, EllipticCurvePublicKey)` branch. The whole call is
`none` when the non-EC branch's attribute reads (`key_size`,
`public_numbers().e`) raise, which discards the partially built dict exactly
as the propagating Python exception would. -/
def _certificate_to_json (certificate : Certificate) : Option (List (String × JsonValue)) :=
  let keyInfo : Option (List (String × JsonValue)) :=
    match certificate.publicKey with
    | .ec d =>
        some [("size", .str (pythonStr d.curveKeySize)), ("curve", .str d.curveName)]
    | .other d =>
        match d.keySize, d.publicNumbersE with
        | some sz, some e =>
            some [("size", .str (pythonStr sz)), ("exponent", .str (pythonStr e))]
        | _, _ => none
  match keyInfo with
  | none => none
  | some keyEntries =>
    let result : List (String × JsonValue) :=
      [("as_pem", .str certificate.publicBytesPem),
       ("hpkp_pin", .str (b64encodeStr (get_public_key_sha256 certificate))),
       ("subject", .str certificate.subjectRfc4514),
       ("issuer", .str certificate.issuerRfc4514),
       ("serialNumber", .str (pythonStr certificate.serialNumber)),
       ("notBefore", .str (strftimeYmdHms certificate.notValidBefore)),
       ("notAfter", .str (strftimeYmdHms certificate.notValidAfter)),
       ("signatureAlgorithm", .str certificate.signatureHashAlgorithmName),
       ("publicKey", .obj ([("algorithm", .str certificate.publicKey.className)] ++ keyEntries))]
    let dns_alt_names := extract_dns_subject_alternative_names certificate
    some (if dns_alt_names.isEmpty then result
          else result ++ [("subjectAlternativeName", .obj [("DNS", .arr (dns_alt_names.map .str))])])

/-- Source function `_deepcopy_method_for_x509_certificate` (json_output.py
lines 31-32): the
method monkeypatched onto the certificate class. It re-parses the
certificate's own PEM encoding and never touches `memo`. `none` models a
parse failure raising out of the copy. -/
def _deepcopy_method_for_x509_certificate (inner_self : Certificate) (memo : String) :
    Option Certificate :=
  load_pem_x509_certificate inner_self.publicBytesPem

/-! ## The generic serializer's registration state -/

/-- The types for which `json_output.py` registers handlers, plus a catch-all
for anything else already present in the dispatch table. -/
inductive SerializableType where
  | objectIdentifier
  | certificate
  | otherType : Nat → SerializableType
deriving DecidableEq

/-- Tags identifying concrete handler functions stored in the dispatch
table. -/
inductive HandlerTag where
  | oidToJson
  | certificateToJson
  | otherHandler : Nat → HandlerTag
deriving DecidableEq

/-- Tags identifying a `__deepcopy__` implementation installed on the
certificate class. -/
inductive DeepcopyTag where
  | pemRoundTrip
  | otherDeepcopy : Nat → DeepcopyTag
deriving DecidableEq

/-- Modelled from the spec: the process-wide state this module's registration
mutates — the generic serializer's "global, type-keyed dispatch table"
(`object_to_json` in `sslyze/cli/json_output.py`, not under `src/`) and the
certificate class's `__deepcopy__` attribute slot. -/
structure SerializerState where
  dispatch : List (SerializableType × HandlerTag)
  certDeepcopy : Option DeepcopyTag
deriving DecidableEq

/-- Modelled from the spec: inserting a handler into the type-keyed dispatch
table, with "the dispatch table's own overwrite-on-duplicate-key semantics"
(a Python dict assignment: replace in place when the key exists, else append). -/
def registerHandler (t : SerializableType) (h : HandlerTag)
    (tbl : List (SerializableType × HandlerTag)) : List (SerializableType × HandlerTag) :=
  match tbl with
  | [] => [(t, h)]
  | (t', h') :: rest =>
      if t' = t then (t, h) :: rest else (t', h') :: registerHandler t h rest

/-- Source function `register_json_serializer_functions` (json_output.py
lines 19-34):
registers `_oid_to_json` then `_certificate_to_json` with the generic
serializer, then assigns the PEM round-trip `__deepcopy__` method onto the
certificate class (an attribute assignment, overwriting any previous value). -/
def register_json_serializer_functions (s : SerializerState) : SerializerState :=
  { dispatch := registerHandler .certificate .certificateToJson
      (registerHandler .objectIdentifier .oidToJson s.dispatch),
    certDeepcopy := some .pemRoundTrip }

/-- The number of handlers the dispatch table holds for a given type. -/
def handlerCount (t : SerializableType) (tbl : List (SerializableType × HandlerTag)) : Nat :=
  (tbl.filter fun kv => kv.1 = t).length

/-- The value at the first occurrence of a key in the dispatch table. -/
def lookupFirst (t : SerializableType) :
    List (SerializableType × HandlerTag) → Option HandlerTag
  | [] => none
  | (t', h) :: rest => if t' = t then some h else lookupFirst t rest

/-! ## Auxiliary definitions used by the statements -/

/-- Model of `isinstance(public_key, EllipticCurvePublicKey)`. -/
def PublicKeyData.isEllipticCurve : PublicKeyData → Bool
  | .ec _ => true
  | .other _ => false

/-- The keys on which every attribute read `_certificate_to_json` performs
succeeds: elliptic-curve keys, and non-elliptic-curve keys exposing both
`key_size` and `public_numbers().e`. -/
def PublicKeyData.fallbackAttrsPresent : PublicKeyData → Prop
  | .ec _ => True
  | .other d => d.keySize.isSome = true ∧ d.publicNumbersE.isSome = true

/-- Holds when `s` is exactly of shape `YYYY-MM-DD HH:MM:SS`: four digits,
dash, two
digits, dash, two digits, space, two digits, colon, two digits, colon, two
digits — 19 characters, no timezone suffix, no sub-second part. -/
def IsYmdHmsString (s : String) : Prop :=
  ∃ y mo da h mi se : List Char,
    s.data = y ++ '-' :: (mo ++ '-' :: (da ++ ' ' :: (h ++ ':' :: (mi ++ ':' :: se)))) ∧
    y.length = 4 ∧ mo.length = 2 ∧ da.length = 2 ∧ h.length = 2 ∧
    mi.length = 2 ∧ se.length = 2 ∧
    (∀ c : Char, (c ∈ y ∨ c ∈ mo ∨ c ∈ da ∨ c ∈ h ∨ c ∈ mi ∨ c ∈ se) →
      c.isDigit = true)

/-- The nine keys every successful `_certificate_to_json` result starts with,
in insertion order. -/
def mandatoryJsonKeys : List String :=
  ["as_pem", "hpkp_pin", "subject", "issuer", "serialNumber",
   "notBefore", "notAfter", "signatureAlgorithm", "publicKey"]

/-! ## Concrete sample values used by witnesses and counterexamples -/

/-- An RSA public key as the openssl backend exposes it: `key_size` and
`public_numbers().e` both present. -/
def exampleRsaKey : PublicKeyData :=
  .other ⟨"_RSAPublicKey", some 2048, some 65537⟩

/-- A P-256 elliptic-curve public key. -/
def exampleEcKey : PublicKeyData :=
  .ec ⟨"_EllipticCurvePublicKey", "secp256r1", 256⟩

/-- A DSA public key: `key_size` exists but `public_numbers()` has no `e`
(DSA public numbers are `(y, parameter_numbers)`), so the fallback branch's
`public_numbers().e` read raises `AttributeError`. -/
def exampleDsaKey : PublicKeyData :=
  .other ⟨"_DSAPublicKey", some 1024, none⟩

def exampleNotBefore : PyDateTime := ⟨2020, 1, 2, 3, 4, 5⟩

def exampleNotAfter : PyDateTime := ⟨2021, 12, 31, 23, 59, 59⟩

/-- A structurally valid certificate with an RSA key and a serial number
exceeding 64 bits (`2 ^ 80 + 7`). -/
def exampleRsaCertificate : Certificate :=
  ⟨"CN=example.com", "CN=Example CA", 2 ^ 80 + 7, exampleNotBefore,
   exampleNotAfter, "sha256", exampleRsaKey, ["example.com", "www.example.com"]⟩

/-- A structurally valid certificate with an elliptic-curve key and no DNS
subject-alternative names. -/
def exampleEcCertificate : Certificate :=
  ⟨"CN=ec.example.com", "CN=Example CA", 42, exampleNotBefore,
   exampleNotAfter, "sha256", exampleEcKey, []⟩

/-- A structurally valid certificate with a DSA key. -/
def exampleDsaCertificate : Certificate :=
  ⟨"CN=dsa.example.com", "CN=Example CA", 43, exampleNotBefore,
   exampleNotAfter, "sha1", exampleDsaKey, ["dsa.example.com"]⟩

/-- A certificate whose key has the same RSA parameters as
`exampleRsaCertificate`'s but a different runtime class name (a different
implementation class of the same cryptographic algorithm). -/
def exampleDifferentClassCertificate : Certificate :=
  ⟨"CN=example.com", "CN=Example CA", 2 ^ 80 + 7, exampleNotBefore,
   exampleNotAfter, "sha256", .other ⟨"RSAPublicKey", some 2048, some 65537⟩,
   ["example.com", "www.example.com"]⟩

/-- A serializer state with one pre-existing handler for an unrelated type
and no copy strategy installed on the certificate class. -/
def exampleSerializerState : SerializerState :=
  ⟨[(.otherType 0, .otherHandler 0)], none⟩

/-- The nine mandatory entries of a successful `_certificate_to_json` result,
parameterised by the key-variant-specific entries of the `publicKey`
sub-mapping. Proven below to describe the source function's output. -/
def jsonMandatory (certificate : Certificate)
    (keyEntries : List (String × JsonValue)) : List (String × JsonValue) :=
  [("as_pem", .str certificate.publicBytesPem),
   ("hpkp_pin", .str (b64encodeStr (get_public_key_sha256 certificate))),
   ("subject", .str certificate.subjectRfc4514),
   ("issuer", .str certificate.issuerRfc4514),
   ("serialNumber", .str (pythonStr certificate.serialNumber)),
   ("notBefore", .str (strftimeYmdHms certificate.notValidBefore)),
   ("notAfter", .str (strftimeYmdHms certificate.notValidAfter)),
   ("signatureAlgorithm", .str certificate.signatureHashAlgorithmName),
   ("publicKey", .obj ([("algorithm", .str certificate.publicKey.className)] ++ keyEntries))]

/-! ## Round-trip lemmas for the decimal rendering -/

theorem decimalValue_append_singleton (l : List Nat) (d : Nat) :
    decimalValue (l ++ [d]) = decimalValue l * 10 + d := by
  simp [decimalValue, List.foldl_append]

theorem decimalValue_natToDigitsAux :
    ∀ fuel n, n ≤ fuel → decimalValue (natToDigitsAux fuel n) = n := by
  intro fuel
  induction fuel with
  | zero =>
      intro n h
      have : n = 0 := Nat.le_zero.mp h
      subst this
      rfl
  | succ f ih =>
      intro n h
      by_cases h0 : n = 0
      · subst h0
        simp [natToDigitsAux, decimalValue]
      · rw [natToDigitsAux, if_neg h0, decimalValue_append_singleton,
          ih (n / 10) (by omega)]
        omega

theorem decimalValue_natDecimalDigits (n : Nat) :
    decimalValue (natDecimalDigits n) = n := by
  unfold natDecimalDigits
  by_cases h0 : n = 0
  · subst h0; rfl
  · rw [if_neg h0]
    exact decimalValue_natToDigitsAux n n (Nat.le_refl n)

theorem natToDigitsAux_lt_ten :
    ∀ fuel n d, d ∈ natToDigitsAux fuel n → d < 10 := by
  intro fuel
  induction fuel with
  | zero => intro n d hd; simp [natToDigitsAux] at hd
  | succ f ih =>
      intro n d hd
      rw [natToDigitsAux] at hd
      by_cases h0 : n = 0
      · simp [h0] at hd
      · rw [if_neg h0] at hd
        rcases List.mem_append.mp hd with h | h
        · exact ih (n / 10) d h
        · simp at h
          subst h
          exact Nat.mod_lt n (by omega)

theorem natDecimalDigits_lt_ten {n d : Nat} (hd : d ∈ natDecimalDigits n) : d < 10 := by
  unfold natDecimalDigits at hd
  by_cases h0 : n = 0
  · simp [h0] at hd; omega
  · rw [if_neg h0] at hd
    exact natToDigitsAux_lt_ten n n d hd

theorem charVal_digitChar {d : Nat} (h : d < 10) : charVal (Nat.digitChar d) = d := by
  interval_cases d <;> rfl

theorem isDigit_digitChar {d : Nat} (h : d < 10) : (Nat.digitChar d).isDigit = true := by
  interval_cases d <;> rfl

theorem decimalValue_map_charVal (n : Nat) :
    decimalValue ((natDecimalChars n).map charVal) = n := by
  unfold natDecimalChars
  rw [List.map_map]
  have h : (natDecimalDigits n).map (charVal ∘ Nat.digitChar) = (natDecimalDigits n).map id :=
    List.map_congr_left fun d hd => charVal_digitChar (natDecimalDigits_lt_ten hd)
  rw [h, List.map_id]
  exact decimalValue_natDecimalDigits n

/-- Python's `str` on a non-negative integer is exact: reading the decimal
string back recovers the integer, whatever its magnitude. -/
theorem decodeDecimalString_pythonStr (n : Nat) :
    decodeDecimalString (pythonStr n) = n := by
  unfold decodeDecimalString pythonStr
  exact decimalValue_map_charVal n

theorem natDecimalChars_all_digit {n : Nat} :
    ∀ c ∈ natDecimalChars n, c.isDigit = true := by
  intro c hc
  unfold natDecimalChars at hc
  rcases List.mem_map.mp hc with ⟨d, hd, rfl⟩
  exact isDigit_digitChar (natDecimalDigits_lt_ten hd)

/-! ## Round-trip lemmas for the PEM codec -/

theorem takeWhile_dropWhile_append_stop (p : Char → Bool) (l₁ l₂ : List Char) (c : Char)
    (h₁ : ∀ a ∈ l₁, p a = true) (h₂ : p c = false) :
    (l₁ ++ c :: l₂).takeWhile p = l₁ ∧ (l₁ ++ c :: l₂).dropWhile p = c :: l₂ := by
  induction l₁ with
  | nil => simp [List.takeWhile_cons, List.dropWhile_cons, h₂]
  | cons a l ih =>
      have ha : p a = true := h₁ a (List.mem_cons_self a l)
      have h := ih fun x hx => h₁ x (List.mem_cons_of_mem a hx)
      simp [List.takeWhile_cons, List.dropWhile_cons, ha, h.1, h.2]

theorem take_drop_append_exact (l₁ l₂ : List Char) :
    (l₁ ++ l₂).take l₁.length = l₁ ∧ (l₁ ++ l₂).drop l₁.length = l₂ := by
  induction l₁ with
  | nil => simp
  | cons a l ih => simp [ih.1, ih.2]

theorem parseNatChars_enc (n : Nat) (rest : List Char) :
    parseNatChars (encNatChars n ++ rest) = some (n, rest) := by
  have h := takeWhile_dropWhile_append_stop Char.isDigit (natDecimalChars n) rest ';'
    natDecimalChars_all_digit (by decide)
  unfold parseNatChars encNatChars
  rw [List.append_assoc]
  simp only [List.singleton_append]
  rw [h.2, h.1, decimalValue_map_charVal]
  rfl

theorem parseStrChars_enc (s : String) (rest : List Char) :
    parseStrChars (encStrChars s ++ rest) = some (s, rest) := by
  have h := take_drop_append_exact s.data rest
  unfold parseStrChars encStrChars
  rw [List.append_assoc, parseNatChars_enc]
  simp only [h.1, h.2, List.length_append, Nat.le_add_right, if_true]

theorem parseOptNatChars_enc (o : Option Nat) (rest : List Char) :
    parseOptNatChars (encOptNatChars o ++ rest) = some (o, rest) := by
  cases o with
  | none => rfl
  | some n => simp [encOptNatChars, parseOptNatChars, parseNatChars_enc]

theorem parseDateTimeChars_enc (d : PyDateTime) (rest : List Char) :
    parseDateTimeChars (encDateTimeChars d ++ rest) = some (d, rest) := by
  simp [encDateTimeChars, parseDateTimeChars, List.append_assoc, parseNatChars_enc]

theorem parsePublicKeyChars_enc (pk : PublicKeyData) (rest : List Char) :
    parsePublicKeyChars (encPublicKeyChars pk ++ rest) = some (pk, rest) := by
  cases pk with
  | ec d =>
      simp [encPublicKeyChars, parsePublicKeyChars, List.append_assoc,
        parseStrChars_enc, parseNatChars_enc]
  | other d =>
      simp [encPublicKeyChars, parsePublicKeyChars, List.append_assoc,
        parseStrChars_enc, parseOptNatChars_enc]

theorem parseStrListAux_enc (l : List String) (rest : List Char) :
    parseStrListAux l.length ((l.map encStrChars).flatten ++ rest) = some (l, rest) := by
  induction l generalizing rest with
  | nil => rfl
  | cons s ss ih =>
      simp [parseStrListAux, List.append_assoc, parseStrChars_enc, ih]

theorem parseStrListChars_enc (l : List String) (rest : List Char) :
    parseStrListChars (encStrListChars l ++ rest) = some (l, rest) := by
  unfold parseStrListChars encStrListChars
  rw [List.append_assoc, parseNatChars_enc]
  simp [parseStrListAux_enc]

theorem parseCertificateChars_enc (c : Certificate) (rest : List Char) :
    parseCertificateChars (encCertificateChars c ++ rest) = some (c, rest) := by
  simp [encCertificateChars, parseCertificateChars, List.append_assoc,
    parseStrChars_enc, parseNatChars_enc, parseDateTimeChars_enc,
    parsePublicKeyChars_enc, parseStrListChars_enc]

/-- The external library's contract the deep-copy strategy relies on:
re-parsing a certificate's own PEM encoding succeeds and returns the same
certificate value. -/
theorem load_pem_publicBytesPem (c : Certificate) :
    load_pem_x509_certificate c.publicBytesPem = some c := by
  unfold load_pem_x509_certificate Certificate.publicBytesPem
  have hdata : (String.mk (pemHeader ++ encCertificateChars c ++ pemFooter)).data
      = pemHeader ++ (encCertificateChars c ++ pemFooter) := by
    simp [List.append_assoc]
  rw [hdata]
  have h := take_drop_append_exact pemHeader (encCertificateChars c ++ pemFooter)
  rw [h.1, h.2, if_pos rfl, parseCertificateChars_enc]
  simp

/-! ## Shape of the formatted timestamps -/

theorem natToDigitsAux_length_le :
    ∀ fuel n k, n < 10 ^ k → (natToDigitsAux fuel n).length ≤ k := by
  intro fuel
  induction fuel with
  | zero => intro n k _; simp [natToDigitsAux]
  | succ f ih =>
      intro n k h
      by_cases h0 : n = 0
      · simp [natToDigitsAux, h0]
      · rw [natToDigitsAux, if_neg h0]
        cases k with
        | zero =>
            exfalso
            simp at h
            omega
        | succ k' =>
            have hdiv : n / 10 < 10 ^ k' := by
              have h10 : n < 10 ^ k' * 10 := by
                rw [← pow_succ]
                exact h
              omega
            have := ih (n / 10) k' hdiv
            simp
            omega

theorem natDecimalChars_length_le {n k : Nat} (h : n < 10 ^ k) (hk : 1 ≤ k) :
    (natDecimalChars n).length ≤ k := by
  unfold natDecimalChars natDecimalDigits
  by_cases h0 : n = 0
  · simp [h0]; omega
  · rw [if_neg h0]
    simp
    exact natToDigitsAux_length_le n n k h

theorem padZeroTo_length {w n : Nat} (h : n < 10 ^ w) (hw : 1 ≤ w) :
    (padZeroTo w n).length = w := by
  unfold padZeroTo
  have := natDecimalChars_length_le h hw
  simp
  omega

theorem padZeroTo_all_digit {w n : Nat} :
    ∀ c ∈ padZeroTo w n, c.isDigit = true := by
  intro c hc
  unfold padZeroTo at hc
  rcases List.mem_append.mp hc with h | h
  · have := List.eq_of_mem_replicate h
    subst this
    rfl
  · exact natDecimalChars_all_digit c h

/-- For a datetime satisfying the `datetime` constructor's invariant, the
model of `strftime("%Y-%m-%d %H:%M:%S")` produces exactly the
`YYYY-MM-DD HH:MM:SS` shape. -/
theorem strftimeYmdHms_shape (d : PyDateTime) (hd : d.Valid) :
    IsYmdHmsString (strftimeYmdHms d) := by
  obtain ⟨h1, h2, h3, h4, h5, h6, h7, h8, h9⟩ := hd
  refine ⟨padZeroTo 4 d.year, padZeroTo 2 d.month, padZeroTo 2 d.day,
    padZeroTo 2 d.hour, padZeroTo 2 d.minute, padZeroTo 2 d.second, ?_,
    padZeroTo_length (by norm_num; omega) (by norm_num),
    padZeroTo_length (by norm_num; omega) (by norm_num),
    padZeroTo_length (by norm_num; omega) (by norm_num),
    padZeroTo_length (by norm_num; omega) (by norm_num),
    padZeroTo_length (by norm_num; omega) (by norm_num),
    padZeroTo_length (by norm_num; omega) (by norm_num), ?_⟩
  · simp [strftimeYmdHms, List.append_assoc]
  · intro c hc
    rcases hc with h | h | h | h | h | h <;> exact padZeroTo_all_digit c h

/-! ## `numFree` helper lemmas -/

theorem numFree_arr_map_str (l : List String) :
    (JsonValue.arr (l.map JsonValue.str)).numFree = true := by
  induction l with
  | nil => simp [JsonValue.numFree]
  | cons s ss ih => simp [JsonValue.numFree, ih]

/-! ## Dispatch-table lemmas -/

theorem registerHandler_of_lookupFirst {t : SerializableType} {h : HandlerTag}
    {tbl : List (SerializableType × HandlerTag)}
    (hl : lookupFirst t tbl = some h) : registerHandler t h tbl = tbl := by
  induction tbl with
  | nil => simp [lookupFirst] at hl
  | cons kv rest ih =>
      obtain ⟨t', h'⟩ := kv
      by_cases he : t' = t
      · subst he
        simp [lookupFirst] at hl
        simp [registerHandler, hl]
      · simp [lookupFirst, he] at hl
        simp [registerHandler, he, ih hl]

theorem lookupFirst_registerHandler_self (t : SerializableType) (h : HandlerTag)
    (tbl : List (SerializableType × HandlerTag)) :
    lookupFirst t (registerHandler t h tbl) = some h := by
  induction tbl with
  | nil => simp [registerHandler, lookupFirst]
  | cons kv rest ih =>
      obtain ⟨t', h'⟩ := kv
      by_cases he : t' = t
      · subst he
        simp [registerHandler, lookupFirst]
      · simp [registerHandler, he, lookupFirst, ih]

theorem lookupFirst_registerHandler_ne {t t' : SerializableType} (h : HandlerTag)
    (tbl : List (SerializableType × HandlerTag)) (hne : t' ≠ t) :
    lookupFirst t' (registerHandler t h tbl) = lookupFirst t' tbl := by
  have hne' : ¬ (t = t') := fun hh => hne hh.symm
  induction tbl with
  | nil => simp [registerHandler, lookupFirst, hne']
  | cons kv rest ih =>
      obtain ⟨t'', h''⟩ := kv
      by_cases he : t'' = t
      · subst he
        simp [registerHandler, lookupFirst, hne']
      · simp [registerHandler, he, lookupFirst, ih]

theorem handlerCount_notMem {t : SerializableType}
    {tbl : List (SerializableType × HandlerTag)}
    (h : t ∉ tbl.map Prod.fst) : handlerCount t tbl = 0 := by
  induction tbl with
  | nil => rfl
  | cons kv rest ih =>
      obtain ⟨t', h'⟩ := kv
      rw [List.map_cons, List.mem_cons] at h
      push_neg at h
      have h1 : ¬ (t' = t) := fun hh => h.1 hh.symm
      have h2 := ih h.2
      simp only [handlerCount, List.filter_cons] at h2 ⊢
      simp [h1, h2]

theorem handlerCount_registerHandler_self (t : SerializableType) (h : HandlerTag)
    (tbl : List (SerializableType × HandlerTag))
    (hnd : (tbl.map Prod.fst).Nodup) :
    handlerCount t (registerHandler t h tbl) = 1 := by
  induction tbl with
  | nil => simp [registerHandler, handlerCount]
  | cons kv rest ih =>
      obtain ⟨t', h'⟩ := kv
      rw [List.map_cons, List.nodup_cons] at hnd
      by_cases he : t' = t
      · subst he
        have h0 : handlerCount t' rest = 0 := handlerCount_notMem hnd.1
        simp only [registerHandler, if_pos rfl, handlerCount, List.filter_cons] at h0 ⊢
        simp [h0]
      · have := ih hnd.2
        simp only [registerHandler, if_neg he, handlerCount, List.filter_cons] at this ⊢
        simp [he, this]

theorem handlerCount_registerHandler_ne {t t' : SerializableType} (h : HandlerTag)
    (tbl : List (SerializableType × HandlerTag)) (hne : t' ≠ t) :
    handlerCount t' (registerHandler t h tbl) = handlerCount t' tbl := by
  have hne' : ¬ (t = t') := fun hh => hne hh.symm
  induction tbl with
  | nil => simp [registerHandler, handlerCount, hne']
  | cons kv rest ih =>
      obtain ⟨t'', h''⟩ := kv
      by_cases he : t'' = t
      · subst he
        simp only [registerHandler, if_pos rfl, handlerCount, List.filter_cons]
        simp [hne']
      · simp only [registerHandler, if_neg he, handlerCount, List.filter_cons] at ih ⊢
        by_cases ht : t'' = t'
        · simp [ht, ih]
        · simp [ht, ih]

theorem registerHandler_mem {x t : SerializableType} {h : HandlerTag}
    {tbl : List (SerializableType × HandlerTag)}
    (hx : x ∈ (registerHandler t h tbl).map Prod.fst) :
    x ∈ tbl.map Prod.fst ∨ x = t := by
  induction tbl with
  | nil =>
      simp [registerHandler] at hx
      exact Or.inr hx
  | cons kv rest ih =>
      obtain ⟨t', h'⟩ := kv
      by_cases he : t' = t
      · subst he
        rw [show registerHandler t' h ((t', h') :: rest) = (t', h) :: rest by
          simp [registerHandler]] at hx
        rw [List.map_cons, List.mem_cons] at hx
        rcases hx with h1 | h1
        · exact Or.inr h1
        · exact Or.inl (by rw [List.map_cons, List.mem_cons]; exact Or.inr h1)
      · rw [show registerHandler t h ((t', h') :: rest) =
            (t', h') :: registerHandler t h rest by simp [registerHandler, he]] at hx
        rw [List.map_cons, List.mem_cons] at hx
        rcases hx with h1 | h1
        · exact Or.inl (by rw [List.map_cons, List.mem_cons]; exact Or.inl h1)
        · rcases ih h1 with h2 | h2
          · exact Or.inl (by rw [List.map_cons, List.mem_cons]; exact Or.inr h2)
          · exact Or.inr h2

theorem nodupKeys_registerHandler (t : SerializableType) (h : HandlerTag)
    (tbl : List (SerializableType × HandlerTag))
    (hnd : (tbl.map Prod.fst).Nodup) :
    ((registerHandler t h tbl).map Prod.fst).Nodup := by
  induction tbl with
  | nil => simp [registerHandler]
  | cons kv rest ih =>
      obtain ⟨t', h'⟩ := kv
      rw [List.map_cons, List.nodup_cons] at hnd
      by_cases he : t' = t
      · subst he
        rw [show registerHandler t' h ((t', h') :: rest) = (t', h) :: rest by
          simp [registerHandler]]
        rw [List.map_cons, List.nodup_cons]
        exact hnd
      · rw [show registerHandler t h ((t', h') :: rest) =
            (t', h') :: registerHandler t h rest by simp [registerHandler, he]]
        rw [List.map_cons, List.nodup_cons]
        refine ⟨?_, ih hnd.2⟩
        intro hx
        rcases registerHandler_mem hx with h1 | h1
        · exact hnd.1 h1
        · exact he h1

/-! ## Characterization of `_certificate_to_json` and the claims -/

/-- Full characterization of every successful `_certificate_to_json` result:
the mapping is the nine mandatory entries, with the `publicKey` entries
determined by the key variant, followed by the `subjectAlternativeName` entry
exactly when the extracted DNS list is non-empty. -/
theorem certificate_to_json_char (cert : Certificate) (m : List (String × JsonValue))
    (h : _certificate_to_json cert = some m) :
    ∃ keyEntries : List (String × JsonValue),
      ((∃ d, cert.publicKey = .ec d ∧
          keyEntries = [("size", JsonValue.str (pythonStr d.curveKeySize)),
            ("curve", JsonValue.str d.curveName)]) ∨
       (∃ d sz e, cert.publicKey = .other d ∧ d.keySize = some sz ∧
          d.publicNumbersE = some e ∧
          keyEntries = [("size", JsonValue.str (pythonStr sz)),
            ("exponent", JsonValue.str (pythonStr e))])) ∧
      m = (if (extract_dns_subject_alternative_names cert).isEmpty then
              jsonMandatory cert keyEntries
            else jsonMandatory cert keyEntries ++
              [("subjectAlternativeName", JsonValue.obj [("DNS",
                 JsonValue.arr ((extract_dns_subject_alternative_names cert).map JsonValue.str))])]) := by
  rcases hpk : cert.publicKey with d | d
  · simp only [_certificate_to_json, hpk] at h
    replace h := Option.some.inj h
    subst h
    refine ⟨_, Or.inl ⟨d, rfl, rfl⟩, ?_⟩
    simp [jsonMandatory, hpk]
  · rcases hks : d.keySize with _ | sz
    · simp only [_certificate_to_json, hpk, hks] at h
      exact Option.noConfusion h
    · rcases he : d.publicNumbersE with _ | e
      · simp only [_certificate_to_json, hpk, hks, he] at h
        exact Option.noConfusion h
      · simp only [_certificate_to_json, hpk, hks, he] at h
        replace h := Option.some.inj h
        subst h
        refine ⟨_, Or.inr ⟨d, sz, e, rfl, hks, he, rfl⟩, ?_⟩
        simp [jsonMandatory, hpk]

/-- Claim C1: for every structurally valid certificate on which
`_certificate_to_json` returns, the mapping has exactly the nine mandatory
keys, followed by `subjectAlternativeName` (mapped to the DNS object) exactly
when the extracted DNS list is non-empty, and no other keys. -/
theorem certificate_to_json_exact_keys (cert : Certificate)
    (m : List (String × JsonValue)) (h : _certificate_to_json cert = some m) :
    dictKeys m = mandatoryJsonKeys ++
      (if (extract_dns_subject_alternative_names cert).isEmpty then []
       else ["subjectAlternativeName"]) ∧
    ((extract_dns_subject_alternative_names cert).isEmpty = false →
      dictGet m "subjectAlternativeName" = some (JsonValue.obj [("DNS",
        JsonValue.arr ((extract_dns_subject_alternative_names cert).map JsonValue.str))])) := by
  obtain ⟨ke, _, rfl⟩ := certificate_to_json_char cert m h
  by_cases hdns : (extract_dns_subject_alternative_names cert).isEmpty
  · simp [hdns, dictKeys, jsonMandatory, mandatoryJsonKeys]
  · constructor
    · simp [hdns, dictKeys, jsonMandatory, mandatoryJsonKeys]
    · intro _
      simp [hdns, dictGet, jsonMandatory]

theorem certificate_to_json_exact_keys_witness :
    ∃ m, _certificate_to_json exampleRsaCertificate = some m ∧
      (dictKeys m = mandatoryJsonKeys ++
        (if (extract_dns_subject_alternative_names exampleRsaCertificate).isEmpty then []
         else ["subjectAlternativeName"]) ∧
      ((extract_dns_subject_alternative_names exampleRsaCertificate).isEmpty = false →
        dictGet m "subjectAlternativeName" = some (JsonValue.obj [("DNS",
          JsonValue.arr ((extract_dns_subject_alternative_names exampleRsaCertificate).map
            JsonValue.str))]))) :=
  ⟨_, rfl, certificate_to_json_exact_keys exampleRsaCertificate _ rfl⟩

/-- Claim C2: the `publicKey` sub-mapping always contains `algorithm` and
exactly one of the pairs `size`+`curve` (elliptic-curve keys) or
`size`+`exponent` (all other keys) — never both, never neither. -/
theorem publicKey_submapping_key_shape (cert : Certificate)
    (m : List (String × JsonValue)) (h : _certificate_to_json cert = some m) :
    ∃ pk : List (String × JsonValue),
      dictGet m "publicKey" = some (JsonValue.obj pk) ∧
      dictGet pk "algorithm" = some (JsonValue.str cert.publicKey.className) ∧
      dictKeys pk = (if cert.publicKey.isEllipticCurve then ["algorithm", "size", "curve"]
                     else ["algorithm", "size", "exponent"]) := by
  obtain ⟨ke, hke, rfl⟩ := certificate_to_json_char cert m h
  have hpk : ∀ rest,
      dictGet (jsonMandatory cert ke ++ rest) "publicKey" =
        some (JsonValue.obj ([("algorithm", JsonValue.str cert.publicKey.className)] ++ ke)) := by
    intro rest
    simp [dictGet, jsonMandatory]
  rcases hke with ⟨d, hd, rfl⟩ | ⟨d, sz, e, hd, hks, he, rfl⟩ <;>
    by_cases hdns : (extract_dns_subject_alternative_names cert).isEmpty
  · refine ⟨_, by simpa [hdns, List.append_nil] using hpk [], ?_, ?_⟩
    · simp [dictGet]
    · simp [dictKeys, hd, PublicKeyData.isEllipticCurve]
  · refine ⟨_, by simpa [hdns] using hpk _, ?_, ?_⟩
    · simp [dictGet]
    · simp [dictKeys, hd, PublicKeyData.isEllipticCurve]
  · refine ⟨_, by simpa [hdns, List.append_nil] using hpk [], ?_, ?_⟩
    · simp [dictGet]
    · simp [dictKeys, hd, PublicKeyData.isEllipticCurve]
  · refine ⟨_, by simpa [hdns] using hpk _, ?_, ?_⟩
    · simp [dictGet]
    · simp [dictKeys, hd, PublicKeyData.isEllipticCurve]

theorem publicKey_submapping_key_shape_witness :
    ∃ m, _certificate_to_json exampleEcCertificate = some m ∧
      ∃ pk : List (String × JsonValue),
        dictGet m "publicKey" = some (JsonValue.obj pk) ∧
        dictGet pk "algorithm" =
          some (JsonValue.str exampleEcCertificate.publicKey.className) ∧
        dictKeys pk = (if exampleEcCertificate.publicKey.isEllipticCurve then
            ["algorithm", "size", "curve"] else ["algorithm", "size", "exponent"]) :=
  ⟨_, rfl, publicKey_submapping_key_shape exampleEcCertificate _ rfl⟩

/-- Claim C3 (counterexample): `_certificate_to_json` is not total over all
structurally valid certificates. On a certificate with a DSA public key —
a valid non-elliptic-curve key whose `public_numbers()` has no `e` — the
fallback branch's attribute read fails, so the function raises instead of
returning a mapping. -/
theorem certificate_to_json_raises_on_dsa :
    _certificate_to_json exampleDsaCertificate = none ∧
    exampleDsaCertificate.publicKey.isEllipticCurve = false := ⟨rfl, rfl⟩

/-- Claim C3 (amended): `_certificate_to_json` returns a complete mapping on
every structurally valid certificate whose public key is an elliptic-curve
key, or a non-elliptic-curve key exposing both `key_size` and
`public_numbers().e` (e.g. RSA); for other keys (DSA, Ed25519, ...) the
fallback branch's attribute reads raise. -/
theorem certificate_to_json_total_on_supported_keys (cert : Certificate)
    (h : cert.publicKey.fallbackAttrsPresent) :
    (_certificate_to_json cert).isSome = true := by
  rcases hpk : cert.publicKey with d | d
  · simp [_certificate_to_json, hpk]
  · rw [hpk] at h
    obtain ⟨h1, h2⟩ := h
    rcases hks : d.keySize with _ | sz
    · rw [hks] at h1
      simp at h1
    · rcases he : d.publicNumbersE with _ | e
      · rw [he] at h2
        simp at h2
      · simp [_certificate_to_json, hpk, hks, he]

theorem certificate_to_json_total_on_supported_keys_witness :
    exampleRsaCertificate.publicKey.fallbackAttrsPresent ∧
    (_certificate_to_json exampleRsaCertificate).isSome = true :=
  ⟨⟨rfl, rfl⟩, certificate_to_json_total_on_supported_keys exampleRsaCertificate ⟨rfl, rfl⟩⟩

theorem numFree_obj_append (a b : List (String × JsonValue)) :
    (JsonValue.obj (a ++ b)).numFree =
      ((JsonValue.obj a).numFree && (JsonValue.obj b).numFree) := by
  induction a with
  | nil => simp [JsonValue.numFree]
  | cons kv rest ih =>
      obtain ⟨k, v⟩ := kv
      simp [JsonValue.numFree, ih, Bool.and_assoc]

/-- Claim C4: the numeric fields of the output — `serialNumber`,
`publicKey.size`, and `publicKey.exponent` when present — are emitted as
decimal-digit strings, never native JSON numbers (the whole output is free of
JSON numbers), and for `serialNumber` and `exponent` the rendering is exact:
decoding the emitted string recovers the integer, whatever its magnitude. -/
theorem numeric_fields_are_decimal_strings (cert : Certificate)
    (m : List (String × JsonValue)) (h : _certificate_to_json cert = some m) :
    dictGet m "serialNumber" = some (JsonValue.str (pythonStr cert.serialNumber)) ∧
    decodeDecimalString (pythonStr cert.serialNumber) = cert.serialNumber ∧
    (JsonValue.obj m).numFree = true ∧
    (∃ pk sz, dictGet m "publicKey" = some (JsonValue.obj pk) ∧
       dictGet pk "size" = some (JsonValue.str (pythonStr sz))) ∧
    (∀ d e, cert.publicKey = .other d → d.publicNumbersE = some e →
       ∃ pk, dictGet m "publicKey" = some (JsonValue.obj pk) ∧
         dictGet pk "exponent" = some (JsonValue.str (pythonStr e)) ∧
         decodeDecimalString (pythonStr e) = e) := by
  obtain ⟨ke, hke, rfl⟩ := certificate_to_json_char cert m h
  obtain ⟨rest, hrw, hrest⟩ : ∃ rest,
      (if (extract_dns_subject_alternative_names cert).isEmpty then
          jsonMandatory cert ke
        else jsonMandatory cert ke ++ [("subjectAlternativeName", JsonValue.obj [("DNS",
          JsonValue.arr ((extract_dns_subject_alternative_names cert).map JsonValue.str))])]) =
        jsonMandatory cert ke ++ rest ∧
      (JsonValue.obj rest).numFree = true := by
    by_cases hdns : (extract_dns_subject_alternative_names cert).isEmpty
    · exact ⟨[], by simp [hdns], by simp [JsonValue.numFree]⟩
    · exact ⟨[("subjectAlternativeName", JsonValue.obj [("DNS",
        JsonValue.arr ((extract_dns_subject_alternative_names cert).map JsonValue.str))])],
        by simp [hdns], by simp [JsonValue.numFree, numFree_arr_map_str]⟩
  rw [hrw]
  have hke_nf : (JsonValue.obj (jsonMandatory cert ke)).numFree = true := by
    rcases hke with ⟨d, hd, rfl⟩ | ⟨d, sz, e, hd, hks, he, rfl⟩ <;>
      simp [jsonMandatory, JsonValue.numFree]
  refine ⟨?_, decodeDecimalString_pythonStr _, ?_, ?_, ?_⟩
  · simp [dictGet, jsonMandatory]
  · rw [numFree_obj_append, hke_nf, hrest]
    rfl
  · rcases hke with ⟨d, hd, rfl⟩ | ⟨d, sz, e, hd, hks, he, rfl⟩
    · exact ⟨[("algorithm", JsonValue.str cert.publicKey.className),
        ("size", JsonValue.str (pythonStr d.curveKeySize)),
        ("curve", JsonValue.str d.curveName)], d.curveKeySize,
        by simp [dictGet, jsonMandatory], by simp [dictGet]⟩
    · exact ⟨[("algorithm", JsonValue.str cert.publicKey.className),
        ("size", JsonValue.str (pythonStr sz)),
        ("exponent", JsonValue.str (pythonStr e))], sz,
        by simp [dictGet, jsonMandatory], by simp [dictGet]⟩
  · intro d' e' hd' he'
    rcases hke with ⟨d, hd, rfl⟩ | ⟨d, sz, e, hd, hks, he, rfl⟩
    · rw [hd] at hd'
      exact PublicKeyData.noConfusion hd'
    · rw [hd] at hd'
      obtain rfl := PublicKeyData.other.inj hd'
      rw [he] at he'
      obtain rfl := Option.some.inj he'
      exact ⟨[("algorithm", JsonValue.str cert.publicKey.className),
        ("size", JsonValue.str (pythonStr sz)),
        ("exponent", JsonValue.str (pythonStr e))],
        by simp [dictGet, jsonMandatory], by simp [dictGet],
        decodeDecimalString_pythonStr _⟩

theorem numeric_fields_are_decimal_strings_witness :
    2 ^ 64 < exampleRsaCertificate.serialNumber ∧
    ∃ m, _certificate_to_json exampleRsaCertificate = some m ∧
      (dictGet m "serialNumber" =
        some (JsonValue.str (pythonStr exampleRsaCertificate.serialNumber)) ∧
      decodeDecimalString (pythonStr exampleRsaCertificate.serialNumber) =
        exampleRsaCertificate.serialNumber ∧
      (JsonValue.obj m).numFree = true ∧
      (∃ pk sz, dictGet m "publicKey" = some (JsonValue.obj pk) ∧
         dictGet pk "size" = some (JsonValue.str (pythonStr sz))) ∧
      (∀ d e, exampleRsaCertificate.publicKey = .other d → d.publicNumbersE = some e →
         ∃ pk, dictGet m "publicKey" = some (JsonValue.obj pk) ∧
           dictGet pk "exponent" = some (JsonValue.str (pythonStr e)) ∧
           decodeDecimalString (pythonStr e) = e)) :=
  ⟨by decide, _, rfl, numeric_fields_are_decimal_strings exampleRsaCertificate _ rfl⟩

/-- Claim C5: the installed deep-copy strategy is a PEM round-trip — the
injected method returns exactly the re-parse of the certificate's own PEM
encoding, the copy equals the original by canonical encoding, and the
projector's `as_pem` field is that same PEM encoding, whose re-parse
succeeds. -/
theorem deepcopy_is_pem_roundtrip (cert : Certificate) (memo : String) :
    _deepcopy_method_for_x509_certificate cert memo =
      load_pem_x509_certificate cert.publicBytesPem ∧
    (∃ copy, _deepcopy_method_for_x509_certificate cert memo = some copy ∧
       copy.publicBytesPem = cert.publicBytesPem) ∧
    (∀ m, _certificate_to_json cert = some m →
       dictGet m "as_pem" = some (JsonValue.str cert.publicBytesPem)) := by
  refine ⟨rfl, ⟨cert, ?_, rfl⟩, ?_⟩
  · unfold _deepcopy_method_for_x509_certificate
    exact load_pem_publicBytesPem cert
  · intro m h
    obtain ⟨ke, _, rfl⟩ := certificate_to_json_char cert m h
    by_cases hdns : (extract_dns_subject_alternative_names cert).isEmpty <;>
      simp [hdns, dictGet, jsonMandatory]

theorem deepcopy_is_pem_roundtrip_witness :
    (∃ copy, _deepcopy_method_for_x509_certificate exampleRsaCertificate "memo" = some copy ∧
       copy.publicBytesPem = exampleRsaCertificate.publicBytesPem) ∧
    (∃ m, _certificate_to_json exampleRsaCertificate = some m ∧
       dictGet m "as_pem" = some (JsonValue.str exampleRsaCertificate.publicBytesPem)) :=
  ⟨(deepcopy_is_pem_roundtrip exampleRsaCertificate "memo").2.1,
   ⟨_, rfl, (deepcopy_is_pem_roundtrip exampleRsaCertificate "memo").2.2 _ rfl⟩⟩

/-- Claim C6: registration is idempotent — after calling
`register_json_serializer_functions` twice from any starting state whose
dispatch table is a well-formed dict (no duplicate keys), the state equals
that after one call, the table holds exactly one handler for
`ObjectIdentifier` and one for `Certificate`, and exactly one copy strategy
is installed on the certificate class. -/
theorem register_json_serializer_functions_idempotent (s : SerializerState)
    (hnd : (s.dispatch.map Prod.fst).Nodup) :
    register_json_serializer_functions (register_json_serializer_functions s) =
      register_json_serializer_functions s ∧
    handlerCount .objectIdentifier
      (register_json_serializer_functions (register_json_serializer_functions s)).dispatch = 1 ∧
    handlerCount .certificate
      (register_json_serializer_functions (register_json_serializer_functions s)).dispatch = 1 ∧
    (register_json_serializer_functions (register_json_serializer_functions s)).certDeepcopy =
      some .pemRoundTrip := by
  have hne : (SerializableType.objectIdentifier) ≠ .certificate := by decide
  have hoid : lookupFirst .objectIdentifier
      (registerHandler .certificate .certificateToJson
        (registerHandler .objectIdentifier .oidToJson s.dispatch)) = some .oidToJson := by
    rw [lookupFirst_registerHandler_ne _ _ hne]
    exact lookupFirst_registerHandler_self _ _ _
  have hcert : lookupFirst .certificate
      (registerHandler .certificate .certificateToJson
        (registerHandler .objectIdentifier .oidToJson s.dispatch)) = some .certificateToJson :=
    lookupFirst_registerHandler_self _ _ _
  have hidem : register_json_serializer_functions (register_json_serializer_functions s) =
      register_json_serializer_functions s := by
    unfold register_json_serializer_functions
    simp only
    rw [registerHandler_of_lookupFirst hoid, registerHandler_of_lookupFirst hcert]
  refine ⟨hidem, ?_, ?_, rfl⟩
  · rw [hidem]
    show handlerCount _ (registerHandler .certificate .certificateToJson
      (registerHandler .objectIdentifier .oidToJson s.dispatch)) = 1
    rw [handlerCount_registerHandler_ne _ _ hne]
    exact handlerCount_registerHandler_self _ _ _ hnd
  · rw [hidem]
    show handlerCount _ (registerHandler .certificate .certificateToJson
      (registerHandler .objectIdentifier .oidToJson s.dispatch)) = 1
    exact handlerCount_registerHandler_self _ _ _
      (nodupKeys_registerHandler _ _ _ hnd)

theorem register_json_serializer_functions_idempotent_witness :
    (exampleSerializerState.dispatch.map Prod.fst).Nodup ∧
    (register_json_serializer_functions (register_json_serializer_functions
        exampleSerializerState) = register_json_serializer_functions exampleSerializerState ∧
     handlerCount .objectIdentifier
       (register_json_serializer_functions (register_json_serializer_functions
         exampleSerializerState)).dispatch = 1 ∧
     handlerCount .certificate
       (register_json_serializer_functions (register_json_serializer_functions
         exampleSerializerState)).dispatch = 1 ∧
     (register_json_serializer_functions (register_json_serializer_functions
       exampleSerializerState)).certDeepcopy = some .pemRoundTrip) :=
  ⟨by simp [exampleSerializerState],
   register_json_serializer_functions_idempotent exampleSerializerState
     (by simp [exampleSerializerState])⟩

/-- Claim C7: `_oid_to_json` is total over every `ObjectIdentifier` and
returns exactly its canonical dotted-string rendering; on the OID
`1.2.840.113549.1.1.11` it returns the string `"1.2.840.113549.1.1.11"`. -/
theorem oid_to_json_is_dotted_string :
    (∀ oid : ObjectIdentifier, _oid_to_json oid = oid.dottedString) ∧
    _oid_to_json ⟨[1, 2, 840, 113549, 1, 1, 11]⟩ = "1.2.840.113549.1.1.11" :=
  ⟨fun _ => rfl, rfl⟩

/-- Claim C8: the `notBefore` and `notAfter` output values are the two
validity timestamps rendered by `strftime("%Y-%m-%d %H:%M:%S")`, whose result
is exactly of shape `YYYY-MM-DD HH:MM:SS` — 19 characters, no timezone
suffix, no sub-second precision. -/
theorem validity_timestamps_format (cert : Certificate)
    (m : List (String × JsonValue)) (h : _certificate_to_json cert = some m)
    (hb : cert.notValidBefore.Valid) (ha : cert.notValidAfter.Valid) :
    dictGet m "notBefore" = some (JsonValue.str (strftimeYmdHms cert.notValidBefore)) ∧
    dictGet m "notAfter" = some (JsonValue.str (strftimeYmdHms cert.notValidAfter)) ∧
    IsYmdHmsString (strftimeYmdHms cert.notValidBefore) ∧
    IsYmdHmsString (strftimeYmdHms cert.notValidAfter) := by
  obtain ⟨ke, _, rfl⟩ := certificate_to_json_char cert m h
  refine ⟨?_, ?_, strftimeYmdHms_shape _ hb, strftimeYmdHms_shape _ ha⟩ <;>
    by_cases hdns : (extract_dns_subject_alternative_names cert).isEmpty <;>
      simp [hdns, dictGet, jsonMandatory]

theorem validity_timestamps_format_witness :
    exampleEcCertificate.notValidBefore.Valid ∧
    exampleEcCertificate.notValidAfter.Valid ∧
    ∃ m, _certificate_to_json exampleEcCertificate = some m ∧
      (dictGet m "notBefore" =
        some (JsonValue.str (strftimeYmdHms exampleEcCertificate.notValidBefore)) ∧
      dictGet m "notAfter" =
        some (JsonValue.str (strftimeYmdHms exampleEcCertificate.notValidAfter)) ∧
      IsYmdHmsString (strftimeYmdHms exampleEcCertificate.notValidBefore) ∧
      IsYmdHmsString (strftimeYmdHms exampleEcCertificate.notValidAfter)) :=
  ⟨by unfold PyDateTime.Valid exampleEcCertificate exampleNotBefore; decide,
   by unfold PyDateTime.Valid exampleEcCertificate exampleNotAfter; decide,
   _, rfl, validity_timestamps_format exampleEcCertificate _ rfl
     (by unfold PyDateTime.Valid exampleEcCertificate exampleNotBefore; decide)
     (by unfold PyDateTime.Valid exampleEcCertificate exampleNotAfter; decide)⟩

/-- Claim C9: the injected `__deepcopy__` ignores its `memo` argument
entirely: for any certificate, any two memo values give identical results, so
the copy depends only on the certificate itself. -/
theorem deepcopy_ignores_memo (cert : Certificate) (memo1 memo2 : String) :
    _deepcopy_method_for_x509_certificate cert memo1 =
      _deepcopy_method_for_x509_certificate cert memo2 := rfl

/-- Claim C10: the `algorithm` value of the `publicKey` sub-mapping is the
runtime class name of the certificate's public-key object
(`__class__.__name__`, an arbitrary string carried by the key object), not a
value from a fixed enumeration: keys with different runtime class names yield
different `algorithm` strings even for the same cryptographic algorithm. -/
theorem publicKey_algorithm_is_runtime_class_name (cert : Certificate)
    (m : List (String × JsonValue)) (h : _certificate_to_json cert = some m) :
    ∃ pk : List (String × JsonValue),
      dictGet m "publicKey" = some (JsonValue.obj pk) ∧
      dictGet pk "algorithm" = some (JsonValue.str cert.publicKey.className) := by
  obtain ⟨ke, _, rfl⟩ := certificate_to_json_char cert m h
  refine ⟨[("algorithm", JsonValue.str cert.publicKey.className)] ++ ke, ?_, ?_⟩
  · by_cases hdns : (extract_dns_subject_alternative_names cert).isEmpty <;>
      simp [hdns, dictGet, jsonMandatory]
  · simp [dictGet]

theorem publicKey_algorithm_is_runtime_class_name_witness :
    ∃ m, _certificate_to_json exampleDifferentClassCertificate = some m ∧
      ∃ pk : List (String × JsonValue),
        dictGet m "publicKey" = some (JsonValue.obj pk) ∧
        dictGet pk "algorithm" =
          some (JsonValue.str exampleDifferentClassCertificate.publicKey.className) :=
  ⟨_, rfl, publicKey_algorithm_is_runtime_class_name exampleDifferentClassCertificate _ rfl⟩
